import Mathlib

/-!
Verification of the example-plan relevance scorer of the nutrition-assistant
application (`streamlit_app.py`, function `find_relevant_examples`, together
with the `Patient` and `ExamplePlan` ORM records it reads).

The Python code is shallowly embedded: Python strings are Lean `String`s,
Python string primitives (`lower`, `strip`, `split`, the `in` substring test)
are modelled as executable functions on the underlying character lists,
Python's `set` of keywords is a `Finset String`, SQL `Float` columns are `ℚ`
(nullable columns are `Option`), and the one Python failure mode that matters
here — comparing `None` with a float raises `TypeError` in Python 3 — is
modelled with `Except String`.
-/

namespace NutritionApp

/-- Python `str.lower()`: lower-case every character. -/
def pyLower (s : String) : String := ⟨s.data.map Char.toLower⟩

/-- Python `str.strip()`: drop whitespace from both ends. -/
def pyTrim (s : String) : String :=
  ⟨((s.data.dropWhile Char.isWhitespace).reverse.dropWhile Char.isWhitespace).reverse⟩

/-- Contiguous-substring test on character lists: `needle` occurs somewhere in
`hay`.  The empty needle occurs in every string, as with Python's `in`. -/
def listContains (needle : List Char) : List Char → Bool
  | [] => needle.isEmpty
  | c :: rest => needle.isPrefixOf (c :: rest) || listContains needle rest

/-- Python `needle in hay` for strings: contiguous substring containment. -/
def pyIn (needle hay : String) : Bool := listContains needle.data hay.data

/-- Accumulator loop behind `pySplit`: gathers the current word (reversed) in
`acc`, emitting it whenever a whitespace run or the end of input is reached. -/
def pyWordsAux : List Char → List Char → List (List Char)
  | [], acc => if acc.isEmpty then [] else [acc.reverse]
  | c :: rest, acc =>
    if c.isWhitespace then
      if acc.isEmpty then pyWordsAux rest [] else acc.reverse :: pyWordsAux rest []
    else pyWordsAux rest (c :: acc)

/-- Python `str.split()` with no separator: split on runs of whitespace,
never producing empty tokens. -/
def pySplit (s : String) : List String :=
  (pyWordsAux s.data []).map (fun w => ⟨w⟩)

/-- The `patients` table columns read by the scorer.  `age` is `NOT NULL`;
`bmi` is a nullable `Float` column; `health_conditions` is a JSON list of
strings (its Python `None`/`[]` truthiness distinction is immaterial here,
both contribute nothing). -/
structure Patient where
  age : Int
  bmi : Option ℚ
  health_conditions : List String
deriving DecidableEq

/-- The `example_plans` table columns read by the scorer.  `patient_profile`
is a nullable `Text` column; `plan_content` is `NOT NULL`; `tags` is a JSON
list of strings. -/
structure ExamplePlan where
  title : String
  patient_profile : Option String
  plan_content : String
  tags : List String
deriving DecidableEq

/-- Keywords contributed by `patient.health_conditions`: each condition string
lower-cased, stripped, and added whole. -/
def condKeywords (conds : List String) : Finset String :=
  (conds.map (fun c => pyTrim (pyLower c))).toFinset

/-- Keywords contributed by the free-text `special_considerations`: the text
is lower-cased and whitespace-split, and each token longer than 3 characters
is stripped and added. -/
def scKeywords : Option String → Finset String
  | none => ∅
  | some s => (((pySplit (pyLower s)).filter (fun w => 3 < w.length)).map pyTrim).toFinset

/-- Keywords contributed by the age bracket (first matching threshold wins). -/
def ageKeywords (age : Int) : List String :=
  if age < 18 then ["adolescente", "joven"]
  else if age < 30 then ["adulto joven"]
  else if age < 60 then ["adulto"]
  else ["adulto mayor", "tercera edad"]

/-- Keywords contributed by the BMI bracket (first matching threshold wins). -/
def bmiKeywords (bmi : ℚ) : List String :=
  if bmi < 18.5 then ["bajo peso"]
  else if bmi < 25 then ["peso normal"]
  else if bmi < 30 then ["sobrepeso"]
  else ["obesidad"]

/-- The keyword-extraction half of `find_relevant_examples` (source lines
123-157).  When `patient.bmi` is NULL the source evaluates `None < 18.5`,
which raises `TypeError` in Python 3; this is the one failure mode of the
extractor and is modelled with `Except.error`. -/
def searchKeywords (patient : Patient) (special_considerations : Option String) :
    Except String (Finset String) :=
  match patient.bmi with
  | none => .error "TypeError: unsupported comparison between NoneType and float"
  | some b =>
    .ok (condKeywords patient.health_conditions ∪ scKeywords special_considerations ∪
      (ageKeywords patient.age).toFinset ∪ (bmiKeywords b).toFinset)

/-- The tag pass of the scoring loop: `+3` for every tag whose lower-cased
form is a member of the keyword set (source lines 164-168). -/
def tagScore (kw : Finset String) (tags : List String) : Nat :=
  tags.foldl (fun acc tag => if pyLower tag ∈ kw then acc + 3 else acc) 0

/-- One text pass of the scoring loop: `+weight` for every keyword of the set
occurring as a substring of the (already lower-cased) text.  Iteration order
over the Python set is immaterial because addition commutes, so the loop is a
`Finset.sum`. -/
def textScore (kw : Finset String) (weight : Nat) (lowered : String) : Nat :=
  Finset.sum kw (fun k => if pyIn k lowered then weight else 0)

/-- The per-example score (source lines 162-182).  The profile and plan passes
run only when the field is truthy in Python (present and non-empty). -/
def score (kw : Finset String) (ex : ExamplePlan) : Nat :=
  tagScore kw ex.tags +
    (match ex.patient_profile with
      | none => 0
      | some p => if p = "" then 0 else textScore kw 2 (pyLower p)) +
    (if ex.plan_content = "" then 0 else textScore kw 1 (pyLower ex.plan_content))

/-- The score formula as the specification words it, with no truthiness guard
on the profile and plan passes: `3` per matching tag, `2` per keyword that is
a substring of the lower-cased profile text, `1` per keyword that is a
substring of the lower-cased plan body.  Stated only to compare against
`score`; an absent profile is read as empty text. -/
def scoreSpec (kw : Finset String) (ex : ExamplePlan) : Nat :=
  3 * (ex.tags.filter (fun t => pyLower t ∈ kw)).length +
    2 * (kw.filter (fun k => pyIn k (pyLower (ex.patient_profile.getD "")) = true)).card +
    (kw.filter (fun k => pyIn k (pyLower ex.plan_content) = true)).card

/-- The accumulation loop of source lines 160-185: examples are scored in
corpus order and the positively-scoring ones are kept, paired with their
score. -/
def scoredExamples (kw : Finset String) : List ExamplePlan → List (Nat × ExamplePlan)
  | [] => []
  | e :: es =>
    if 0 < score kw e then (score kw e, e) :: scoredExamples kw es
    else scoredExamples kw es

/-- Insertion step of the stable descending sort: `x` is placed before the
first element whose key does not exceed `x`'s, so among equal keys the
earlier-inserted element keeps priority. -/
def insertDesc {α : Type} (x : Nat × α) : List (Nat × α) → List (Nat × α)
  | [] => [x]
  | y :: l => if y.1 ≤ x.1 then x :: y :: l else y :: insertDesc x l

/-- Model of `scored_examples.sort(reverse=True, key=lambda x: x[0])`:
Python's sort is stable also with `reverse=True`, and any stable descending
sort computes the same list, so insertion sort is used. -/
def sortDesc {α : Type} : List (Nat × α) → List (Nat × α)
  | [] => []
  | x :: l => insertDesc x (sortDesc l)

/-- The selection half of `find_relevant_examples` given the keyword set
(source lines 159-189): score, keep positives, sort stably by score
descending, truncate to `top_k` (the caller passes the default `top_k = 2`),
and drop the scores. -/
def selectTopK (kw : Finset String) (corpus : List ExamplePlan) (top_k : Nat) :
    List ExamplePlan :=
  ((sortDesc (scoredExamples kw corpus)).map Prod.snd).take top_k

/-- The whole of `find_relevant_examples` with the corpus snapshot supplied as
an argument (the source obtains it from a read-only ORM query and touches the
session in no other way).  The empty-corpus early return at source lines
119-120 happens before any keyword extraction. -/
def find_relevant_examples (patient : Patient) (special_considerations : Option String)
    (corpus : List ExamplePlan) (top_k : Nat) : Except String (List ExamplePlan) :=
  if corpus = [] then .ok []
  else (searchKeywords patient special_considerations).map
    (fun kw => selectTopK kw corpus top_k)

/-- Example record used by the spec's own worked example: one tag match, one
profile substring match, one plan substring match. -/
def exDiab : ExamplePlan :=
  ⟨"Plan A", some "patient has diabetes", "avoid diabetes triggers", ["diabetes"]⟩

/-- Example record scoring 3 against `{"diabetes"}`: a tag match only. -/
def exTagOnly : ExamplePlan := ⟨"Plan B", none, "", ["diabetes"]⟩

/-- A second tag-only record, distinguishable from `exTagOnly` by title. -/
def exTagOnly2 : ExamplePlan := ⟨"Plan C", none, "", ["diabetes"]⟩

/-- Example record with a truthy-empty profile: Python skips the profile pass
on it even though the empty keyword is a substring of the empty text. -/
def exEmptyProfile : ExamplePlan := ⟨"Plan D", some "", "x", []⟩

/-- The tag pass is `3` per tag whose lower-cased form is in the keyword set. -/
theorem tagScore_eq (kw : Finset String) (tags : List String) :
    tagScore kw tags = 3 * (tags.filter (fun t => pyLower t ∈ kw)).length := by
  suffices h : ∀ (ts : List String) (acc : Nat),
      ts.foldl (fun acc tag => if pyLower tag ∈ kw then acc + 3 else acc) acc =
        acc + 3 * (ts.filter (fun t => pyLower t ∈ kw)).length by
    simpa using h tags 0
  intro ts
  induction ts with
  | nil => intro acc; simp
  | cons t ts ih =>
    intro acc
    by_cases h : pyLower t ∈ kw
    · simp [List.foldl_cons, List.filter_cons, h, ih]
      omega
    · simp [List.foldl_cons, List.filter_cons, h, ih]

/-- A text pass is the weight times the number of keywords occurring in the
text. -/
theorem textScore_eq (kw : Finset String) (w : Nat) (t : String) :
    textScore kw w t = w * (kw.filter (fun k => pyIn k t = true)).card := by
  unfold textScore
  rw [← Finset.sum_filter]
  rw [Finset.sum_const, smul_eq_mul, mul_comm]

/-- Inserting into the stable descending sort permutes a cons. -/
theorem insertDesc_perm {α : Type} (x : Nat × α) (l : List (Nat × α)) :
    (insertDesc x l).Perm (x :: l) := by
  induction l with
  | nil => simp [insertDesc]
  | cons y ys ih =>
    by_cases h : y.1 ≤ x.1
    · simp [insertDesc, h]
    · simp only [insertDesc, if_neg h]
      exact (ih.cons y).trans (List.Perm.swap x y ys)

/-- The stable descending sort is a permutation of its input. -/
theorem sortDesc_perm {α : Type} (l : List (Nat × α)) : (sortDesc l).Perm l := by
  induction l with
  | nil => simp [sortDesc]
  | cons x xs ih => exact (insertDesc_perm x (sortDesc xs)).trans (ih.cons x)

/-- Insertion preserves the descending-key invariant. -/
theorem insertDesc_pairwise {α : Type} (x : Nat × α) (l : List (Nat × α))
    (h : l.Pairwise (fun a b => b.1 ≤ a.1)) :
    (insertDesc x l).Pairwise (fun a b => b.1 ≤ a.1) := by
  induction l with
  | nil => simp [insertDesc]
  | cons y ys ih =>
    rcases List.pairwise_cons.mp h with ⟨hy, hys⟩
    by_cases hc : y.1 ≤ x.1
    · simp only [insertDesc, if_pos hc]
      refine List.pairwise_cons.mpr ⟨?_, h⟩
      intro z hz
      rcases List.mem_cons.mp hz with rfl | hz2
      · exact hc
      · exact le_trans (hy z hz2) hc
    · simp only [insertDesc, if_neg hc]
      refine List.pairwise_cons.mpr ⟨?_, ih hys⟩
      intro z hz
      rcases List.mem_cons.mp ((insertDesc_perm x ys).mem_iff.mp hz) with rfl | hz2
      · exact le_of_lt (lt_of_not_le hc)
      · exact hy z hz2

/-- The stable descending sort yields pairwise non-increasing keys. -/
theorem sortDesc_pairwise {α : Type} (l : List (Nat × α)) :
    (sortDesc l).Pairwise (fun a b => b.1 ≤ a.1) := by
  induction l with
  | nil => simp [sortDesc]
  | cons x xs ih => exact insertDesc_pairwise x (sortDesc xs) ih

/-- Stability of the insertion step: restricted to any one key, insertion is
just a cons, so the original relative order of equal keys survives. -/
theorem insertDesc_filter {α : Type} (s : Nat) (x : Nat × α) (l : List (Nat × α)) :
    (insertDesc x l).filter (fun y => y.1 = s) = (x :: l).filter (fun y => y.1 = s) := by
  induction l with
  | nil => rfl
  | cons y ys ih =>
    by_cases hc : y.1 ≤ x.1
    · simp only [insertDesc, if_pos hc]
    · simp only [insertDesc, if_neg hc]
      have hxy : x.1 < y.1 := lt_of_not_le hc
      by_cases hy : y.1 = s
      · have hx : ¬ x.1 = s := by omega
        simp [List.filter_cons, hy, hx, ih]
      · simp [List.filter_cons, hy, ih]

/-- Stability of the whole sort: filtering the sorted list to any one key
returns those entries in their original input order. -/
theorem sortDesc_filter {α : Type} (s : Nat) (l : List (Nat × α)) :
    (sortDesc l).filter (fun y => y.1 = s) = l.filter (fun y => y.1 = s) := by
  induction l with
  | nil => rfl
  | cons x xs ih =>
    calc (insertDesc x (sortDesc xs)).filter (fun y => y.1 = s)
        = (x :: sortDesc xs).filter (fun y => y.1 = s) := insertDesc_filter s x (sortDesc xs)
      _ = (x :: xs).filter (fun y => y.1 = s) := by
          simp only [List.filter_cons]
          rw [ih]

/-- Dropping the scores from the accumulation loop leaves exactly the corpus
entries with positive score, in corpus order. -/
theorem scoredExamples_map_snd (kw : Finset String) (corpus : List ExamplePlan) :
    (scoredExamples kw corpus).map Prod.snd = corpus.filter (fun e => 0 < score kw e) := by
  induction corpus with
  | nil => rfl
  | cons e es ih =>
    by_cases h : 0 < score kw e
    · simp [scoredExamples, h, List.filter_cons, ih]
    · simp [scoredExamples, h, List.filter_cons, ih]

/-- Every entry of the accumulation loop carries its example's score, the
score is positive, and the example comes from the corpus. -/
theorem mem_scoredExamples (kw : Finset String) (corpus : List ExamplePlan) :
    ∀ p ∈ scoredExamples kw corpus, p.1 = score kw p.2 ∧ 0 < p.1 ∧ p.2 ∈ corpus := by
  induction corpus with
  | nil => intro p hp; simp [scoredExamples] at hp
  | cons e es ih =>
    intro p hp
    by_cases h : 0 < score kw e
    · simp only [scoredExamples, if_pos h] at hp
      rcases List.mem_cons.mp hp with rfl | hp2
      · exact ⟨rfl, h, List.mem_cons_self _ _⟩
      · have := ih p hp2
        exact ⟨this.1, this.2.1, List.mem_cons_of_mem e this.2.2⟩
    · simp only [scoredExamples, if_neg h] at hp
      have := ih p hp
      exact ⟨this.1, this.2.1, List.mem_cons_of_mem e this.2.2⟩

/-- A corpus entry with positive score enters the accumulation loop. -/
theorem mem_scoredExamples_of_pos (kw : Finset String) {corpus : List ExamplePlan}
    {e : ExamplePlan} (he : e ∈ corpus) (h : 0 < score kw e) :
    (score kw e, e) ∈ scoredExamples kw corpus := by
  induction corpus with
  | nil => simp at he
  | cons a es ih =>
    rcases List.mem_cons.mp he with rfl | he2
    · simp [scoredExamples, if_pos h]
    · by_cases ha : 0 < score kw a
      · simp only [scoredExamples, if_pos ha]
        exact List.mem_cons_of_mem _ (ih he2)
      · simp only [scoredExamples, if_neg ha]
        exact ih he2

/-- When every corpus entry scores zero the accumulation loop is empty. -/
theorem scoredExamples_eq_nil (kw : Finset String) (corpus : List ExamplePlan)
    (h : ∀ e ∈ corpus, score kw e = 0) : scoredExamples kw corpus = [] := by
  induction corpus with
  | nil => rfl
  | cons e es ih =>
    have he : score kw e = 0 := h e (List.mem_cons_self _ _)
    simp only [scoredExamples, he]
    exact ih (fun e' he' => h e' (List.mem_cons_of_mem e he'))

/-- Everything the selector returns is a positively scoring corpus entry. -/
theorem mem_selectTopK (kw : Finset String) (corpus : List ExamplePlan) (K : Nat) :
    ∀ ex ∈ selectTopK kw corpus K, ex ∈ corpus ∧ 0 < score kw ex := by
  intro ex hex
  unfold selectTopK at hex
  have h1 : ex ∈ (sortDesc (scoredExamples kw corpus)).map Prod.snd :=
    (List.take_sublist _ _).subset hex
  rcases List.mem_map.mp h1 with ⟨p, hp, rfl⟩
  have hp2 := (sortDesc_perm _).mem_iff.mp hp
  have h3 := mem_scoredExamples kw corpus p hp2
  exact ⟨h3.2.2, h3.1 ▸ h3.2.1⟩

/-- The selector returns `min K (number of positively scoring entries)`
records. -/
theorem selectTopK_length (kw : Finset String) (corpus : List ExamplePlan) (K : Nat) :
    (selectTopK kw corpus K).length = min K (scoredExamples kw corpus).length := by
  unfold selectTopK
  rw [List.length_take, List.length_map, (sortDesc_perm _).length_eq]

/-- C1 counterexample: on an example whose profile is present but empty and
with the empty string as a keyword, the code's score is 1 (the profile pass is
skipped by Python truthiness) while the claim's three-pass formula gives 3
(the empty keyword is a substring of the empty profile text), so the claimed
equality fails. -/
theorem score_ne_spec_formula :
    score {""} exEmptyProfile = 1 ∧ scoreSpec {""} exEmptyProfile = 3 ∧
    (score {""} exEmptyProfile == scoreSpec {""} exEmptyProfile) = false := by
  refine ⟨by decide, by decide, by decide⟩

/-- C1 (amended): the score is the sum of the three weighted passes, where the
profile pass runs only when the profile is present and non-empty and the plan
pass only when the plan body is non-empty; on the spec's worked example
(keyword set `{"diabetes"}`, one tag match, one profile substring match, one
plan substring match) the score is 6. -/
theorem score_decomposition :
    (∀ (kw : Finset String) (ex : ExamplePlan),
      score kw ex =
        3 * (ex.tags.filter (fun t => pyLower t ∈ kw)).length +
          (match ex.patient_profile with
            | none => 0
            | some p => if p = "" then 0 else
                2 * (kw.filter (fun k => pyIn k (pyLower p) = true)).card) +
          (if ex.plan_content = "" then 0 else
            (kw.filter (fun k => pyIn k (pyLower ex.plan_content) = true)).card)) ∧
    score {"diabetes"} exDiab = 6 := by
  constructor
  · intro kw ex
    unfold score
    rw [tagScore_eq]
    cases hp : ex.patient_profile with
    | none => split_ifs <;> simp [textScore_eq]
    | some p => split_ifs <;> simp [textScore_eq]
  · decide

/-- C2: the selector truncates to `K` the stable descending sort of the
positively scored corpus entries: the sorted list is a permutation of the
scored list, its scores are non-increasing, equal scores keep their corpus
order, every scored entry carries its example's positive score; concretely,
with scores 6 and 3 and `K = 1` only the score-6 example is returned, and two
equal-score examples come back in corpus order with `K = 2`. -/
theorem selector_top_k :
    (∀ (kw : Finset String) (corpus : List ExamplePlan) (K : Nat),
      selectTopK kw corpus K = ((sortDesc (scoredExamples kw corpus)).map Prod.snd).take K ∧
      (sortDesc (scoredExamples kw corpus)).Perm (scoredExamples kw corpus) ∧
      (sortDesc (scoredExamples kw corpus)).Pairwise (fun a b => b.1 ≤ a.1) ∧
      (∀ s : Nat, (sortDesc (scoredExamples kw corpus)).filter (fun y => y.1 = s) =
        (scoredExamples kw corpus).filter (fun y => y.1 = s)) ∧
      (∀ p ∈ scoredExamples kw corpus, p.1 = score kw p.2 ∧ 0 < p.1 ∧ p.2 ∈ corpus)) ∧
    selectTopK {"diabetes"} [exTagOnly, exDiab] 1 = [exDiab] ∧
    selectTopK {"diabetes"} [exTagOnly, exTagOnly2] 2 = [exTagOnly, exTagOnly2] ∧
    score {"diabetes"} exDiab = 6 ∧ score {"diabetes"} exTagOnly = 3 ∧
    score {"diabetes"} exTagOnly2 = 3 := by
  refine ⟨fun kw corpus K =>
    ⟨rfl, sortDesc_perm _, sortDesc_pairwise _, fun s => sortDesc_filter s _,
      mem_scoredExamples kw corpus⟩, by decide, by decide, by decide, by decide, by decide⟩

/-- C2 witness: instantiating the scored-entry conjunct on the two-example
corpus at the concrete entry `(6, exDiab)`. -/
theorem selector_top_k_witness :
    ((6, exDiab) : Nat × ExamplePlan).1 = score {"diabetes"} ((6, exDiab) : Nat × ExamplePlan).2 ∧
    0 < ((6, exDiab) : Nat × ExamplePlan).1 ∧
    ((6, exDiab) : Nat × ExamplePlan).2 ∈ [exTagOnly, exDiab] :=
  (selector_top_k.1 {"diabetes"} [exTagOnly, exDiab] 1).2.2.2.2 (6, exDiab) (by decide)

/-- C3 counterexample: with the BMI column NULL the extractor does not treat
it as 0 and add the underweight keyword; it raises `TypeError` (Python 3
refuses `None < 18.5`), so no keyword set is produced at all. -/
theorem absent_bmi_not_underweight :
    searchKeywords ⟨25, none, []⟩ none =
      .error "TypeError: unsupported comparison between NoneType and float" := rfl

/-- C3 (amended): the BMI brackets with ascending thresholds 18.5, 25, 30, ∞
map every present BMI to exactly one keyword; BMI 32 yields `obesidad` and
BMI 22 yields `peso normal`; when BMI is absent the extractor raises
`TypeError` instead of treating the value as 0. -/
theorem bmi_brackets :
    (∀ b : ℚ,
      (bmiKeywords b = ["bajo peso"] ↔ b < 18.5) ∧
      (bmiKeywords b = ["peso normal"] ↔ 18.5 ≤ b ∧ b < 25) ∧
      (bmiKeywords b = ["sobrepeso"] ↔ 25 ≤ b ∧ b < 30) ∧
      (bmiKeywords b = ["obesidad"] ↔ 30 ≤ b)) ∧
    searchKeywords ⟨45, some 32, []⟩ none = .ok {"adulto", "obesidad"} ∧
    searchKeywords ⟨45, some 22, []⟩ none = .ok {"adulto", "peso normal"} ∧
    (∀ (p : Patient) (sc : Option String), p.bmi = none →
      searchKeywords p sc = .error "TypeError: unsupported comparison between NoneType and float") := by
  refine ⟨fun b => ?_, ?_, ?_, fun p sc h => by simp [searchKeywords, h]⟩
  · unfold bmiKeywords
    split_ifs with h1 h2 h3
    · exact ⟨iff_of_true rfl h1,
        iff_of_false (by decide) (fun h => by obtain ⟨ha, hb⟩ := h; linarith),
        iff_of_false (by decide) (fun h => by obtain ⟨ha, hb⟩ := h; linarith),
        iff_of_false (by decide) (fun h => by linarith)⟩
    · exact ⟨iff_of_false (by decide) (fun h => by linarith),
        iff_of_true rfl ⟨le_of_not_lt h1, h2⟩,
        iff_of_false (by decide) (fun h => by obtain ⟨ha, hb⟩ := h; linarith),
        iff_of_false (by decide) (fun h => by linarith)⟩
    · exact ⟨iff_of_false (by decide) (fun h => by linarith),
        iff_of_false (by decide) (fun h => by obtain ⟨ha, hb⟩ := h; linarith),
        iff_of_true rfl ⟨le_of_not_lt h2, h3⟩,
        iff_of_false (by decide) (fun h => by linarith)⟩
    · exact ⟨iff_of_false (by decide) (fun h => by linarith),
        iff_of_false (by decide) (fun h => by obtain ⟨ha, hb⟩ := h; linarith),
        iff_of_false (by decide) (fun h => by obtain ⟨ha, hb⟩ := h; linarith),
        iff_of_true rfl (le_of_not_lt h3)⟩
  · simp [searchKeywords, condKeywords, scKeywords, ageKeywords, bmiKeywords]
    norm_num
    decide
  · simp [searchKeywords, condKeywords, scKeywords, ageKeywords, bmiKeywords]
    norm_num
    decide

/-- C3 witness: the absent-BMI conjunct applied to a concrete patient whose
BMI column is NULL. -/
theorem bmi_brackets_witness :
    searchKeywords ⟨50, none, ["x"]⟩ (some "hello") =
      .error "TypeError: unsupported comparison between NoneType and float" :=
  bmi_brackets.2.2.2 ⟨50, none, ["x"]⟩ (some "hello") rfl

/-- C4: the age brackets with ascending thresholds 18, 30, 60, ∞ (first match
wins) map every age to exactly one keyword list; a 17-year-old patient's
keyword set contains `adolescente` and `joven` but not `adulto mayor`, and a
65-year-old patient's contains `adulto mayor` and `tercera edad` but not
`adolescente`. -/
theorem age_brackets :
    (∀ age : Int,
      (ageKeywords age = ["adolescente", "joven"] ↔ age < 18) ∧
      (ageKeywords age = ["adulto joven"] ↔ 18 ≤ age ∧ age < 30) ∧
      (ageKeywords age = ["adulto"] ↔ 30 ≤ age ∧ age < 60) ∧
      (ageKeywords age = ["adulto mayor", "tercera edad"] ↔ 60 ≤ age)) ∧
    searchKeywords ⟨17, some 22, []⟩ none = .ok {"adolescente", "joven", "peso normal"} ∧
    "adolescente" ∈ ({"adolescente", "joven", "peso normal"} : Finset String) ∧
    "joven" ∈ ({"adolescente", "joven", "peso normal"} : Finset String) ∧
    "adulto mayor" ∉ ({"adolescente", "joven", "peso normal"} : Finset String) ∧
    searchKeywords ⟨65, some 22, []⟩ none = .ok {"adulto mayor", "tercera edad", "peso normal"} ∧
    "adulto mayor" ∈ ({"adulto mayor", "tercera edad", "peso normal"} : Finset String) ∧
    "tercera edad" ∈ ({"adulto mayor", "tercera edad", "peso normal"} : Finset String) ∧
    "adolescente" ∉ ({"adulto mayor", "tercera edad", "peso normal"} : Finset String) := by
  refine ⟨fun age => ?_, ?_, by decide, by decide, by decide, ?_, by decide, by decide, by decide⟩
  · unfold ageKeywords
    split_ifs with h1 h2 h3
    · exact ⟨iff_of_true rfl h1,
        iff_of_false (by decide) (fun h => by omega),
        iff_of_false (by decide) (fun h => by omega),
        iff_of_false (by decide) (fun h => by omega)⟩
    · exact ⟨iff_of_false (by decide) (fun h => by omega),
        iff_of_true rfl ⟨by omega, h2⟩,
        iff_of_false (by decide) (fun h => by omega),
        iff_of_false (by decide) (fun h => by omega)⟩
    · exact ⟨iff_of_false (by decide) (fun h => by omega),
        iff_of_false (by decide) (fun h => by omega),
        iff_of_true rfl ⟨by omega, h3⟩,
        iff_of_false (by decide) (fun h => by omega)⟩
    · exact ⟨iff_of_false (by decide) (fun h => by omega),
        iff_of_false (by decide) (fun h => by omega),
        iff_of_false (by decide) (fun h => by omega),
        iff_of_true rfl (by omega)⟩
  · simp [searchKeywords, condKeywords, scKeywords, ageKeywords, bmiKeywords]
    norm_num
    decide
  · simp [searchKeywords, condKeywords, scKeywords, ageKeywords, bmiKeywords]
    norm_num
    decide

/-- C4 witness: the bracket characterization applied at age 17. -/
theorem age_brackets_witness : ageKeywords 17 = ["adolescente", "joven"] :=
  ((age_brackets.1 17).1).mpr (by decide)

/-- A text pass yields zero when no keyword occurs in the text. -/
theorem textScore_eq_zero {kw : Finset String} {t : String} (w : Nat)
    (h : ∀ k ∈ kw, pyIn k t = false) : textScore kw w t = 0 :=
  Finset.sum_eq_zero (fun k hk => by simp [h k hk])

/-- The tag pass yields zero when no lower-cased tag is a keyword. -/
theorem tagScore_eq_zero {kw : Finset String} {tags : List String}
    (h : ∀ t ∈ tags, pyLower t ∉ kw) : tagScore kw tags = 0 := by
  rw [tagScore_eq]
  have hf : tags.filter (fun t => pyLower t ∈ kw) = [] := by
    rw [List.filter_eq_nil_iff]
    intro t ht
    simp [h t ht]
  simp [hf]

/-- An example sharing no tag, no profile substring and no plan substring
with the keyword set scores zero. -/
theorem score_eq_zero_of_no_match (kw : Finset String) (ex : ExamplePlan)
    (h1 : ∀ t ∈ ex.tags, pyLower t ∉ kw)
    (h2 : ∀ k ∈ kw, pyIn k (pyLower (ex.patient_profile.getD "")) = false)
    (h3 : ∀ k ∈ kw, pyIn k (pyLower ex.plan_content) = false) : score kw ex = 0 := by
  unfold score
  rw [tagScore_eq_zero h1]
  have hplan : (if ex.plan_content = "" then 0 else textScore kw 1 (pyLower ex.plan_content)) = 0 := by
    split_ifs
    · rfl
    · exact textScore_eq_zero 1 h3
  have hprof : (match ex.patient_profile with
      | none => 0
      | some p => if p = "" then 0 else textScore kw 2 (pyLower p)) = 0 := by
    cases hp : ex.patient_profile with
    | none => rfl
    | some p =>
      rw [hp] at h2
      simp only [Option.getD_some] at h2
      show (if p = "" then 0 else textScore kw 2 (pyLower p)) = 0
      split_ifs
      · rfl
      · exact textScore_eq_zero 2 h2
  rw [hplan, hprof]

/-- C5: with the corpus snapshot supplied as input, the pipeline is a pure
function: equal inputs give equal results, and every record it returns — both
at selector level for any keyword set and at pipeline level for any
successful run — is an element of the corpus it read, so it creates no
records. -/
theorem pipeline_pure :
    ∀ (p : Patient) (sc : Option String) (corpus : List ExamplePlan) (K : Nat),
      find_relevant_examples p sc corpus K = find_relevant_examples p sc corpus K ∧
      (∀ kw : Finset String, ∀ ex ∈ selectTopK kw corpus K, ex ∈ corpus) ∧
      (∀ out, find_relevant_examples p sc corpus K = .ok out → ∀ ex ∈ out, ex ∈ corpus) := by
  intro p sc corpus K
  refine ⟨rfl, fun kw ex hex => (mem_selectTopK kw corpus K ex hex).1, ?_⟩
  intro out hout ex hex
  unfold find_relevant_examples at hout
  by_cases hc : corpus = []
  · rw [if_pos hc] at hout
    injection hout with h
    rw [← h] at hex
    simp at hex
  · rw [if_neg hc] at hout
    cases hkw : searchKeywords p sc with
    | error msg => rw [hkw] at hout; simp [Except.map] at hout
    | ok kw =>
      rw [hkw] at hout
      simp only [Except.map, Except.ok.injEq] at hout
      rw [← hout] at hex
      exact (mem_selectTopK kw corpus K ex hex).1

/-- C5 witness: the selector-level membership conjunct on a concrete corpus. -/
theorem pipeline_pure_witness : exDiab ∈ [exTagOnly, exDiab] :=
  (pipeline_pure ⟨25, none, []⟩ none [exTagOnly, exDiab] 1).2.1 {"diabetes"} exDiab (by decide)

/-- C6 counterexample: the extractor does have an error condition — with the
BMI column NULL it raises `TypeError`, producing no keyword set. -/
theorem extractor_raises_on_absent_bmi :
    searchKeywords ⟨40, none, []⟩ none =
      .error "TypeError: unsupported comparison between NoneType and float" := rfl

/-- C6 (amended): when BMI is present the extractor always returns a set, and
that set is never empty — with no health conditions and no free text it is
exactly the union of one age-bracket and one BMI-bracket keyword list, and
every successfully produced keyword set has positive cardinality because the
brackets always contribute. -/
theorem keyword_set_never_empty :
    (∀ (age : Int) (b : ℚ), searchKeywords ⟨age, some b, []⟩ none =
      .ok ((ageKeywords age).toFinset ∪ (bmiKeywords b).toFinset)) ∧
    (∀ (p : Patient) (sc : Option String) (K : Finset String),
      searchKeywords p sc = .ok K → 0 < K.card) := by
  constructor
  · intro age b
    simp [searchKeywords, condKeywords, scKeywords]
  · intro p sc K h
    cases hb : p.bmi with
    | none => simp [searchKeywords, hb] at h
    | some b =>
      simp only [searchKeywords, hb, Except.ok.injEq] at h
      have hage : (ageKeywords p.age).toFinset.Nonempty := by
        unfold ageKeywords
        split_ifs <;> simp
      rw [← h]
      refine Finset.card_pos.mpr (hage.mono ?_)
      exact Finset.subset_union_right.trans Finset.subset_union_left

/-- C6 witness: the positive-cardinality conjunct on a concrete patient. -/
theorem keyword_set_never_empty_witness :
    0 < (condKeywords [] ∪ scKeywords none ∪ (ageKeywords 33).toFinset ∪
      (bmiKeywords 27).toFinset).card :=
  keyword_set_never_empty.2 ⟨33, some 27, []⟩ none _ rfl

/-- C7: zero-scoring examples are never returned and do not count toward `K`
(the output length is `min K` the number of positive scorers); an empty
corpus yields an empty list at selector and pipeline level for any patient;
a corpus sharing no tag, profile substring or plan substring with the keyword
set yields an empty list; and when `K` is at least the number of positive
scorers, all of them are returned. -/
theorem selector_edge_cases :
    ∀ (kw : Finset String) (corpus : List ExamplePlan) (K : Nat),
      (∀ ex ∈ selectTopK kw corpus K, 0 < score kw ex ∧ ex ∈ corpus) ∧
      selectTopK kw [] K = [] ∧
      (∀ (p : Patient) (sc : Option String), find_relevant_examples p sc [] K = .ok []) ∧
      ((∀ ex ∈ corpus,
          (∀ t ∈ ex.tags, pyLower t ∉ kw) ∧
          (∀ k ∈ kw, pyIn k (pyLower (ex.patient_profile.getD "")) = false) ∧
          (∀ k ∈ kw, pyIn k (pyLower ex.plan_content) = false)) →
        selectTopK kw corpus K = []) ∧
      ((scoredExamples kw corpus).length ≤ K →
        (selectTopK kw corpus K).length = (scoredExamples kw corpus).length ∧
        ∀ ex ∈ corpus, 0 < score kw ex → ex ∈ selectTopK kw corpus K) ∧
      (selectTopK kw corpus K).length = min K (scoredExamples kw corpus).length := by
  intro kw corpus K
  refine ⟨fun ex hex => ⟨(mem_selectTopK kw corpus K ex hex).2,
      (mem_selectTopK kw corpus K ex hex).1⟩,
    by simp [selectTopK, scoredExamples, sortDesc], fun p sc => rfl, ?_, ?_,
    selectTopK_length kw corpus K⟩
  · intro h
    have hnil : scoredExamples kw corpus = [] :=
      scoredExamples_eq_nil kw corpus (fun e he =>
        score_eq_zero_of_no_match kw e (h e he).1 (h e he).2.1 (h e he).2.2)
    simp [selectTopK, hnil, sortDesc]
  · intro hK
    have hlen : ((sortDesc (scoredExamples kw corpus)).map Prod.snd).length =
        (scoredExamples kw corpus).length := by
      rw [List.length_map, (sortDesc_perm _).length_eq]
    constructor
    · rw [selectTopK_length]
      exact Nat.min_eq_right hK
    · intro ex hmem hpos
      unfold selectTopK
      rw [List.take_of_length_le (by rw [hlen]; exact hK)]
      refine List.mem_map.mpr ⟨(score kw ex, ex), ?_, rfl⟩
      exact (sortDesc_perm _).mem_iff.mpr (mem_scoredExamples_of_pos kw hmem hpos)

/-- C7 witness: the no-shared-keyword conjunct on a concrete corpus and
keyword set with no overlap. -/
theorem selector_edge_cases_witness : selectTopK {"zzzz"} [exDiab] 3 = [] :=
  (selector_edge_cases {"zzzz"} [exDiab] 3).2.2.2.1 (by decide)

/-- C8: health conditions enter the keyword set whole, lower-cased and
stripped; the free text is lower-cased and whitespace-split with exactly the
tokens longer than 3 characters kept (stripped, a no-op on split tokens);
both components are subsets of any successfully extracted keyword set, and
the sets are deduplicated. -/
theorem extractor_normalization :
    (∀ (conds : List String) (k : String),
      k ∈ condKeywords conds ↔ ∃ c ∈ conds, k = pyTrim (pyLower c)) ∧
    (∀ (s k : String),
      k ∈ scKeywords (some s) ↔
        ∃ w ∈ pySplit (pyLower s), 3 < w.length ∧ k = pyTrim w) ∧
    (∀ (p : Patient) (sc : Option String) (K : Finset String),
      searchKeywords p sc = .ok K →
        condKeywords p.health_conditions ⊆ K ∧ scKeywords sc ⊆ K) ∧
    (∀ conds : List String, (condKeywords conds).val.Nodup) ∧
    (∀ sc : Option String, (scKeywords sc).val.Nodup) := by
  refine ⟨?_, ?_, ?_, fun conds => (condKeywords conds).nodup,
    fun sc => (scKeywords sc).nodup⟩
  · intro conds k
    simp only [condKeywords, List.mem_toFinset, List.mem_map]
    constructor
    · rintro ⟨c, hc, rfl⟩
      exact ⟨c, hc, rfl⟩
    · rintro ⟨c, hc, rfl⟩
      exact ⟨c, hc, rfl⟩
  · intro s k
    simp only [scKeywords, List.mem_toFinset, List.mem_map, List.mem_filter]
    constructor
    · rintro ⟨w, ⟨hw, hlen⟩, rfl⟩
      exact ⟨w, hw, by simpa using hlen, rfl⟩
    · rintro ⟨w, hw, hlen, rfl⟩
      exact ⟨w, ⟨hw, by simpa using hlen⟩, rfl⟩
  · intro p sc K h
    cases hb : p.bmi with
    | none => simp [searchKeywords, hb] at h
    | some b =>
      simp only [searchKeywords, hb, Except.ok.injEq] at h
      rw [← h]
      constructor
      · exact Finset.subset_union_left.trans
          (Finset.subset_union_left.trans Finset.subset_union_left)
      · exact Finset.subset_union_right.trans
          (Finset.subset_union_left.trans Finset.subset_union_left)

/-- C8 witness: the subset conjunct on a concrete patient with one health
condition and a free-text note. -/
theorem extractor_normalization_witness :
    condKeywords ["Gout Flare"] ⊆
      (condKeywords ["Gout Flare"] ∪ scKeywords (some "High Protein Diet") ∪
        (ageKeywords 60).toFinset ∪ (bmiKeywords 24).toFinset) ∧
    scKeywords (some "High Protein Diet") ⊆
      (condKeywords ["Gout Flare"] ∪ scKeywords (some "High Protein Diet") ∪
        (ageKeywords 60).toFinset ∪ (bmiKeywords 24).toFinset) :=
  extractor_normalization.2.2.1 ⟨60, some 24, ["Gout Flare"]⟩ (some "High Protein Diet") _ rfl

/-- C9: raising the result limit from `K` to `K + 1` only appends: the list
returned with limit `K` is an initial segment of the list returned with limit
`K + 1` on the same inputs. -/
theorem top_k_monotone :
    ∀ (kw : Finset String) (corpus : List ExamplePlan) (K : Nat),
      ∃ t, selectTopK kw corpus K ++ t = selectTopK kw corpus (K + 1) := by
  intro kw corpus K
  refine ⟨(((sortDesc (scoredExamples kw corpus)).map Prod.snd).drop K).take 1, ?_⟩
  unfold selectTopK
  exact (List.take_add _ K 1).symm

/-- C10: everything the selector returns comes from the corpus, and the
output uses distinct corpus positions: it is a permutation of a sublist of
the corpus. -/
theorem output_from_corpus :
    ∀ (kw : Finset String) (corpus : List ExamplePlan) (K : Nat),
      (∀ ex ∈ selectTopK kw corpus K, ex ∈ corpus) ∧
      (selectTopK kw corpus K).Subperm corpus := by
  intro kw corpus K
  have h1 : List.Sublist (selectTopK kw corpus K)
      ((sortDesc (scoredExamples kw corpus)).map Prod.snd) := List.take_sublist _ _
  have h2 : ((sortDesc (scoredExamples kw corpus)).map Prod.snd).Perm
      ((scoredExamples kw corpus).map Prod.snd) := (sortDesc_perm _).map _
  have h3 : List.Sublist ((scoredExamples kw corpus).map Prod.snd) corpus := by
    rw [scoredExamples_map_snd]
    exact List.filter_sublist corpus
  have hsub : (selectTopK kw corpus K).Subperm corpus :=
    h1.subperm.trans (h2.subperm.trans h3.subperm)
  exact ⟨fun ex hex => hsub.subset hex, hsub⟩

/-- C10 witness: membership applied on a concrete singleton corpus. -/
theorem output_from_corpus_witness : exDiab ∈ [exDiab] :=
  (output_from_corpus {"diabetes"} [exDiab] 2).1 exDiab (by decide)

end NutritionApp
